import Mathlib

/-!
Shallow embedding of the Soroban-style fungible-token contract in
`src/contracts/pair/src/token/contract.rs` (the Token Operations Facade).

The facade composes five sub-ledger modules (`admin`, `allowance`, `balance`,
`metadata`, `event`) that are not part of the sources; those helpers are
modelled from the specification (sections 4.1 - 4.3 and 6 of spec.md) and each
such definition carries a doc comment starting `Modelled from the spec:`.

Machine integers: token amounts, balances and allowances are Rust `i128`
values; they are embedded as `Int` with the explicit bounds `I128MIN` /
`I128MAX` wherever the code checks for overflow (`checked_add` / `expect`).
A Rust panic aborts the whole invocation and the host discards every storage
write of that invocation, so an operation is embedded as
`TokenState → Except Err TokenState`, and a trace step keeps the previous
state whenever the operation returns an error.
-/

/-- Largest `i128` value, `2^127 - 1`. -/
def I128MAX : Int := 170141183460469231731687303715884105727

/-- Smallest `i128` value, `-2^127`. -/
def I128MIN : Int := -170141183460469231731687303715884105728

/-- Error kinds of the contract (spec.md section 7).  In the Rust code each
of these is a panic / `expect`; the host maps a panic to a failed invocation
with no retained state. -/
inductive Err : Type where
  | Uninitialized
  | AlreadyInitialized
  | NegativeAmount
  | Overflow
  | InsufficientBalance
  | InsufficientAllowance
  | NotAdmin
  | NotAuthorized
  | InvalidMetadata
  deriving DecidableEq, Repr

/-- Events emitted by the facade (`event` module; modelled from the spec:
the event sink records one entry per successful mutating operation).
`burn_from` emits a `burn` event and `transfer_from` emits a `transfer`
event, exactly as in `contract.rs`. -/
inductive Event : Type where
  | incrAllowEv (owner spender : Nat) (amount : Int)
  | decrAllowEv (owner spender : Nat) (amount : Int)
  | transferEv (src dst : Nat) (amount : Int)
  | burnEv (src : Nat) (amount : Int)
  | clawbackEv (adminAddr src : Nat) (amount : Int)
  | setAuthEv (adminAddr id : Nat) (authorize : Bool)
  | mintEv (adminAddr dst : Nat) (amount : Int)
  | setAdminEv (adminAddr newAdmin : Nat)
  deriving DecidableEq, Repr

/-- Association-list lookup with a default, embedding the host key/value
storage `get` (spec.md section 6): a key never written reads as the default
(`0` for balances and allowances, `true` for authorization flags). -/
def lookupD {κ α : Type} [DecidableEq κ] (d : α) : List (κ × α) → κ → α
  | [], _ => d
  | (k, v) :: t, q => if q = k then v else lookupD d t q

/-- Remove every entry of a key from an association list. -/
def eraseKey {κ α : Type} [DecidableEq κ] : List (κ × α) → κ → List (κ × α)
  | [], _ => []
  | (k, v) :: t, q => if q = k then eraseKey t q else (k, v) :: eraseKey t q

/-- Association-list store, embedding the host key/value storage `put`. -/
def setKey {κ α : Type} [DecidableEq κ] (l : List (κ × α)) (q : κ) (v : α) :
    List (κ × α) :=
  (q, v) :: eraseKey l q

/-- Ledger state: the three sub-ledgers, the metadata store, and the event
log (spec.md section 3).  Accounts are opaque equality-comparable
identities, embedded as `Nat`. -/
structure TokenState : Type where
  admin : Option Nat
  balances : List (Nat × Int)
  authFlags : List (Nat × Bool)
  allowances : List ((Nat × Nat) × Int)
  decimal : Option Nat
  name : Option (List Nat)
  symbol : Option (List Nat)
  events : List Event
  deriving DecidableEq, Repr

/-- The empty ledger: nothing written yet. -/
def emptyState : TokenState :=
  { admin := none, balances := [], authFlags := [], allowances := [],
    decimal := none, name := none, symbol := none, events := [] }

/-- Append an event to the log (the `event` module; modelled from the spec:
fire-and-forget `emit`). -/
def emit (s : TokenState) (ev : Event) : TokenState :=
  { s with events := ev :: s.events }

/-- Authorization oracle (spec.md section 6): `a.require_auth()` succeeds
iff the invocation was genuinely initiated or co-signed by `a`; the set of
such accounts is the `auths` input of the invocation. -/
def require_auth (auths : List Nat) (a : Nat) : Except Err Unit :=
  if a ∈ auths then Except.ok () else Except.error Err.NotAuthorized

/-- `check_nonnegative_amount` from `contract.rs` lines 51-55: panics
(`NegativeAmount`) when `amount < 0`. -/
def check_nonnegative_amount (amount : Int) : Except Err Unit :=
  if amount < 0 then Except.error Err.NegativeAmount else Except.ok ()

/-- Rust `i128::checked_add` followed by `expect`: fails with `Overflow`
when the mathematical sum leaves the `i128` range. -/
def checked_add_i128 (a b : Int) : Except Err Int :=
  if a + b > I128MAX ∨ a + b < I128MIN then Except.error Err.Overflow
  else Except.ok (a + b)

/-- Modelled from the spec: `admin::has_administrator` (module not in the
sources) — whether the admin slot was ever written. -/
def has_administrator (s : TokenState) : Bool :=
  s.admin.isSome

/-- Modelled from the spec: `admin::write_administrator` (module not in the
sources) — overwrites the stored admin unconditionally (spec 4.1 rotate). -/
def write_administrator (s : TokenState) (a : Nat) : TokenState :=
  { s with admin := some a }

/-- Modelled from the spec: `admin::check_admin` (module not in the
sources) — reading an unset admin fails with `Uninitialized`; a candidate
different from the stored admin fails with `NotAdmin` (spec 4.1). -/
def check_admin (s : TokenState) (candidate : Nat) : Except Err Unit :=
  match s.admin with
  | none => Except.error Err.Uninitialized
  | some a => if candidate = a then Except.ok () else Except.error Err.NotAdmin

/-- Modelled from the spec: `balance::read_balance` (module not in the
sources) — stored balance or `0` if never touched (spec 4.2). -/
def read_balance (s : TokenState) (id : Nat) : Int :=
  lookupD 0 s.balances id

/-- Modelled from the spec: `balance::receive_balance` (module not in the
sources) — credit: adds to the balance, failing with `Overflow` when the
addition leaves the numeric range (spec 4.2). -/
def receive_balance (s : TokenState) (id : Nat) (amount : Int) :
    Except Err TokenState := do
  let b := read_balance s id
  let nb ← checked_add_i128 b amount
  Except.ok { s with balances := setKey s.balances id nb }

/-- Modelled from the spec: `balance::spend_balance` (module not in the
sources) — debit: fails with `InsufficientBalance` when
`amount > read_balance`, otherwise subtracts (spec 4.2). -/
def spend_balance (s : TokenState) (id : Nat) (amount : Int) :
    Except Err TokenState :=
  let b := read_balance s id
  if amount > b then Except.error Err.InsufficientBalance
  else Except.ok { s with balances := setKey s.balances id (b - amount) }

/-- Modelled from the spec: `balance::is_authorized` (module not in the
sources) — stored flag or the default `true` (spec 4.2). -/
def is_authorized (s : TokenState) (id : Nat) : Bool :=
  lookupD true s.authFlags id

/-- Modelled from the spec: `balance::write_authorization` (module not in
the sources) — overwrites the flag, leaving balances alone (spec 4.2). -/
def write_authorization (s : TokenState) (id : Nat) (authorize : Bool) :
    TokenState :=
  { s with authFlags := setKey s.authFlags id authorize }

/-- Modelled from the spec: `allowance::read_allowance` (module not in the
sources) — stored value or `0` (spec 4.3). -/
def read_allowance (s : TokenState) (owner spender : Nat) : Int :=
  lookupD 0 s.allowances (owner, spender)

/-- Modelled from the spec: `allowance::write_allowance` (module not in the
sources) — stores the new amount for the `(owner, spender)` pair. -/
def write_allowance (s : TokenState) (owner spender : Nat) (v : Int) :
    TokenState :=
  { s with allowances := setKey s.allowances (owner, spender) v }

/-- Modelled from the spec: `allowance::spend_allowance` (module not in the
sources) — fails with `InsufficientAllowance` when `amount` exceeds the
current allowance, otherwise subtracts exactly `amount` (spec 4.3). -/
def spend_allowance (s : TokenState) (owner spender : Nat) (amount : Int) :
    Except Err TokenState :=
  let a := read_allowance s owner spender
  if amount > a then Except.error Err.InsufficientAllowance
  else Except.ok (write_allowance s owner spender (a - amount))

/-- Modelled from the spec: `metadata::write_decimal` (module not in the
sources) — stores the (already `u8`-converted) decimal precision. -/
def write_decimal (s : TokenState) (d : Nat) : TokenState :=
  { s with decimal := some d }

/-- Modelled from the spec: `metadata::read_decimal` (module not in the
sources) — reads the stored precision; unset metadata (never initialized)
is an `Uninitialized` failure. -/
def read_decimal (s : TokenState) : Except Err Nat :=
  match s.decimal with
  | none => Except.error Err.Uninitialized
  | some d => Except.ok d

/-- Modelled from the spec: `metadata::write_name` (module not in the
sources). -/
def write_name (s : TokenState) (nm : List Nat) : TokenState :=
  { s with name := some nm }

/-- Modelled from the spec: `metadata::write_symbol` (module not in the
sources). -/
def write_symbol (s : TokenState) (sym : List Nat) : TokenState :=
  { s with symbol := some sym }

namespace Token

/-- `Token::initialize` (`contract.rs` lines 62-71): fails when an admin
already exists; writes the admin, then converts `decimal : u32` to `u8`
(`u8::try_from(decimal).expect(..)` — failure is the `InvalidMetadata`
error), then writes the metadata.  The write of the administrator before
the decimal check is faithful to the code; on a panic the host retains
none of the writes. -/
def init (adminAddr : Nat) (decimal : Nat) (nm sym : List Nat)
    (s : TokenState) : Except Err TokenState :=
  if has_administrator s then Except.error Err.AlreadyInitialized
  else
    let s1 := write_administrator s adminAddr
    if 256 ≤ decimal then Except.error Err.InvalidMetadata
    else Except.ok (write_symbol (write_name (write_decimal s1 decimal) nm) sym)

/-- `Token::allowance` (`contract.rs` lines 73-75). -/
def allowance (s : TokenState) (owner spender : Nat) : Int :=
  read_allowance s owner spender

/-- `Token::incr_allow` (`contract.rs` lines 77-89). -/
def incr_allow (auths : List Nat) (owner spender : Nat) (amount : Int)
    (s : TokenState) : Except Err TokenState := do
  require_auth auths owner
  check_nonnegative_amount amount
  let a := read_allowance s owner spender
  let na ← checked_add_i128 a amount
  Except.ok (emit (write_allowance s owner spender na)
    (Event.incrAllowEv owner spender amount))

/-- `Token::decr_allow` (`contract.rs` lines 91-103): clamps to `0` when
`amount ≥ allowance`, otherwise subtracts. -/
def decr_allow (auths : List Nat) (owner spender : Nat) (amount : Int)
    (s : TokenState) : Except Err TokenState := do
  require_auth auths owner
  check_nonnegative_amount amount
  let a := read_allowance s owner spender
  let s1 := if amount ≥ a then write_allowance s owner spender 0
            else write_allowance s owner spender (a - amount)
  Except.ok (emit s1 (Event.decrAllowEv owner spender amount))

/-- `Token::balance` (`contract.rs` lines 105-107). -/
def balance (s : TokenState) (id : Nat) : Int :=
  read_balance s id

/-- `Token::spendable` (`contract.rs` lines 109-111): identical to
`balance`. -/
def spendable (s : TokenState) (id : Nat) : Int :=
  read_balance s id

/-- `Token::authorized` (`contract.rs` lines 113-115). -/
def authorized (s : TokenState) (id : Nat) : Bool :=
  is_authorized s id

/-- `Token::transfer` (`contract.rs` lines 117-124).  The sender
authorization check is commented out in the source (`//from.require_auth()`),
so no authorization is required. -/
def transfer (src dst : Nat) (amount : Int) (s : TokenState) :
    Except Err TokenState := do
  check_nonnegative_amount amount
  let s1 ← spend_balance s src amount
  let s2 ← receive_balance s1 dst amount
  Except.ok (emit s2 (Event.transferEv src dst amount))

/-- `Token::transfer_from` (`contract.rs` lines 126-134). -/
def transfer_from (auths : List Nat) (spender src dst : Nat) (amount : Int)
    (s : TokenState) : Except Err TokenState := do
  require_auth auths spender
  check_nonnegative_amount amount
  let s1 ← spend_allowance s src spender amount
  let s2 ← spend_balance s1 src amount
  let s3 ← receive_balance s2 dst amount
  Except.ok (emit s3 (Event.transferEv src dst amount))

/-- `Token::burn` (`contract.rs` lines 136-142). -/
def burn (auths : List Nat) (src : Nat) (amount : Int) (s : TokenState) :
    Except Err TokenState := do
  require_auth auths src
  check_nonnegative_amount amount
  let s1 ← spend_balance s src amount
  Except.ok (emit s1 (Event.burnEv src amount))

/-- `Token::burn_from` (`contract.rs` lines 144-151): emits a `burn`
event. -/
def burn_from (auths : List Nat) (spender src : Nat) (amount : Int)
    (s : TokenState) : Except Err TokenState := do
  require_auth auths spender
  check_nonnegative_amount amount
  let s1 ← spend_allowance s src spender amount
  let s2 ← spend_balance s1 src amount
  Except.ok (emit s2 (Event.burnEv src amount))

/-- `Token::clawback` (`contract.rs` lines 153-159): the amount sign is
checked before the admin check. -/
def clawback (auths : List Nat) (adminAddr src : Nat) (amount : Int)
    (s : TokenState) : Except Err TokenState := do
  check_nonnegative_amount amount
  check_admin s adminAddr
  require_auth auths adminAddr
  let s1 ← spend_balance s src amount
  Except.ok (emit s1 (Event.clawbackEv adminAddr src amount))

/-- `Token::set_auth` (`contract.rs` lines 161-166). -/
def set_auth (auths : List Nat) (adminAddr id : Nat) (authorize : Bool)
    (s : TokenState) : Except Err TokenState := do
  check_admin s adminAddr
  require_auth auths adminAddr
  Except.ok (emit (write_authorization s id authorize)
    (Event.setAuthEv adminAddr id authorize))

/-- `Token::mint` (`contract.rs` lines 168-174). -/
def mint (auths : List Nat) (adminAddr dst : Nat) (amount : Int)
    (s : TokenState) : Except Err TokenState := do
  check_nonnegative_amount amount
  check_admin s adminAddr
  require_auth auths adminAddr
  let s1 ← receive_balance s dst amount
  Except.ok (emit s1 (Event.mintEv adminAddr dst amount))

/-- `Token::set_admin` (`contract.rs` lines 176-181). -/
def set_admin (auths : List Nat) (adminAddr newAdmin : Nat)
    (s : TokenState) : Except Err TokenState := do
  check_admin s adminAddr
  require_auth auths adminAddr
  Except.ok (emit (write_administrator s newAdmin)
    (Event.setAdminEv adminAddr newAdmin))

/-- `Token::decimals` (`contract.rs` lines 183-185). -/
def decimals (s : TokenState) : Except Err Nat :=
  read_decimal s

end Token

/-- One public mutating operation together with its arguments, as named in
the `TokenTrait` of `contract.rs` (queries are separate pure functions). -/
inductive Op : Type where
  | initOp (adminAddr : Nat) (decimal : Nat) (nm sym : List Nat)
  | incrAllowOp (owner spender : Nat) (amount : Int)
  | decrAllowOp (owner spender : Nat) (amount : Int)
  | transferOp (src dst : Nat) (amount : Int)
  | transferFromOp (spender src dst : Nat) (amount : Int)
  | burnOp (src : Nat) (amount : Int)
  | burnFromOp (spender src : Nat) (amount : Int)
  | clawbackOp (adminAddr src : Nat) (amount : Int)
  | setAuthOp (adminAddr id : Nat) (authorize : Bool)
  | mintOp (adminAddr dst : Nat) (amount : Int)
  | setAdminOp (adminAddr newAdmin : Nat)
  deriving DecidableEq, Repr

/-- An invocation: an operation plus the set of accounts that authorized
(signed) it, consumed by the authorization oracle. -/
structure Call : Type where
  auths : List Nat
  op : Op
  deriving DecidableEq, Repr

/-- Dispatch an invocation to the facade. -/
def exec (s : TokenState) (c : Call) : Except Err TokenState :=
  match c.op with
  | Op.initOp a d nm sym => Token.init a d nm sym s
  | Op.incrAllowOp o sp am => Token.incr_allow c.auths o sp am s
  | Op.decrAllowOp o sp am => Token.decr_allow c.auths o sp am s
  | Op.transferOp src dst am => Token.transfer src dst am s
  | Op.transferFromOp sp src dst am => Token.transfer_from c.auths sp src dst am s
  | Op.burnOp src am => Token.burn c.auths src am s
  | Op.burnFromOp sp src am => Token.burn_from c.auths sp src am s
  | Op.clawbackOp a src am => Token.clawback c.auths a src am s
  | Op.setAuthOp a id au => Token.set_auth c.auths a id au s
  | Op.mintOp a dst am => Token.mint c.auths a dst am s
  | Op.setAdminOp a na => Token.set_admin c.auths a na s

/-- Host semantics of a panic: a failed invocation retains no storage
write, so the state after a failed call is the state before it. -/
def step (s : TokenState) (c : Call) : TokenState :=
  match exec s c with
  | Except.ok s' => s'
  | Except.error _ => s

/-- Run a sequence of invocations from the empty ledger. -/
def run (calls : List Call) : TokenState :=
  List.foldl step emptyState calls

/-- Sum of the stored values of an association list. -/
def sumVals {κ : Type} (l : List (κ × Int)) : Int :=
  (l.map Prod.snd).sum

/-- Total amount ever minted, read off the event log. -/
def mintTotal : List Event → Int
  | [] => 0
  | Event.mintEv _ _ am :: t => am + mintTotal t
  | _ :: t => mintTotal t

/-- Total amount ever destroyed: `burn` events (emitted by both `burn` and
`burn_from`) plus `clawback` events. -/
def burnTotal : List Event → Int
  | [] => 0
  | Event.burnEv _ am :: t => am + burnTotal t
  | Event.clawbackEv _ _ am :: t => am + burnTotal t
  | _ :: t => burnTotal t


deriving instance DecidableEq for Except

/-- No-duplicate-keys predicate for an association list. -/
def nodupKeys {κ α : Type} (l : List (κ × α)) : Prop :=
  (l.map Prod.fst).Nodup

/-- Value of a `mint` event, `0` for every other event. -/
def evMint : Event → Int
  | Event.mintEv _ _ am => am
  | _ => 0

/-- Value destroyed by a `burn` or `clawback` event, `0` otherwise. -/
def evBurn : Event → Int
  | Event.burnEv _ am => am
  | Event.clawbackEv _ _ am => am
  | _ => 0

/-! ### Inductive invariant of reachable states -/

/-- Invariant of reachable ledger states: well-formed key/value stores,
balances within `[0, I128MAX]`, non-negative allowances, conservation of
value against the event log, and a `u8`-bounded decimal precision. -/
structure LedgerInv (s : TokenState) : Prop where
  balNodup : nodupKeys s.balances
  allowNodup : nodupKeys s.allowances
  balBounds : ∀ p ∈ s.balances, 0 ≤ p.2 ∧ p.2 ≤ I128MAX
  allowNonneg : ∀ p ∈ s.allowances, 0 ≤ p.2
  conserve : sumVals s.balances = mintTotal s.events - burnTotal s.events
  decBound : ∀ d, s.decimal = some d → d ≤ 255


/-! ### Association-list lemmas -/

theorem lookupD_setKey_self {κ α : Type} [DecidableEq κ] (d : α)
    (l : List (κ × α)) (q : κ) (v : α) :
    lookupD d (setKey l q v) q = v := by
  simp [setKey, lookupD]

theorem lookupD_eraseKey {κ α : Type} [DecidableEq κ] (d : α)
    (l : List (κ × α)) (q q' : κ) (h : q' ≠ q) :
    lookupD d (eraseKey l q) q' = lookupD d l q' := by
  induction l with
  | nil => rfl
  | cons p t ih =>
    obtain ⟨k, v⟩ := p
    by_cases hk : q = k
    · subst hk
      simp [eraseKey, lookupD, h, ih]
    · simp only [eraseKey, if_neg hk, lookupD]
      by_cases hk' : q' = k
      · simp [hk']
      · simp [hk', ih]

theorem lookupD_setKey_ne {κ α : Type} [DecidableEq κ] (d : α)
    (l : List (κ × α)) (q q' : κ) (v : α) (h : q' ≠ q) :
    lookupD d (setKey l q v) q' = lookupD d l q' := by
  simp only [setKey, lookupD, if_neg h]
  exact lookupD_eraseKey d l q q' h

theorem mem_eraseKey {κ α : Type} [DecidableEq κ] {p : κ × α}
    {l : List (κ × α)} {q : κ} (h : p ∈ eraseKey l q) : p ∈ l := by
  induction l with
  | nil => simp [eraseKey] at h
  | cons hd t ih =>
    obtain ⟨k, v⟩ := hd
    by_cases hk : q = k
    · simp only [eraseKey, if_pos hk] at h
      exact List.mem_cons_of_mem _ (ih h)
    · simp only [eraseKey, if_neg hk, List.mem_cons] at h
      rcases h with h | h
      · exact List.mem_cons.2 (Or.inl h)
      · exact List.mem_cons_of_mem _ (ih h)

theorem mem_setKey {κ α : Type} [DecidableEq κ] {p : κ × α}
    {l : List (κ × α)} {q : κ} {v : α} (h : p ∈ setKey l q v) :
    p = (q, v) ∨ p ∈ l := by
  simp only [setKey, List.mem_cons] at h
  rcases h with h | h
  · exact Or.inl h
  · exact Or.inr (mem_eraseKey h)

theorem not_mem_keys_eraseKey {κ α : Type} [DecidableEq κ]
    (l : List (κ × α)) (q : κ) : q ∉ (eraseKey l q).map Prod.fst := by
  induction l with
  | nil => simp [eraseKey]
  | cons hd t ih =>
    obtain ⟨k, v⟩ := hd
    by_cases hk : q = k
    · simpa [eraseKey, if_pos hk] using ih
    · simpa [eraseKey, if_neg hk, hk] using ih

theorem keys_eraseKey_sublist {κ α : Type} [DecidableEq κ]
    (l : List (κ × α)) (q : κ) :
    ((eraseKey l q).map Prod.fst).Sublist (l.map Prod.fst) := by
  induction l with
  | nil => simp [eraseKey]
  | cons hd t ih =>
    obtain ⟨k, v⟩ := hd
    by_cases hk : q = k
    · simp only [eraseKey, if_pos hk, List.map_cons]
      exact ih.trans (List.sublist_cons_self _ _)
    · simp only [eraseKey, if_neg hk, List.map_cons]
      exact ih.cons₂ _

theorem nodupKeys_eraseKey {κ α : Type} [DecidableEq κ]
    {l : List (κ × α)} (q : κ) (h : nodupKeys l) :
    nodupKeys (eraseKey l q) :=
  (h.sublist (keys_eraseKey_sublist l q))

theorem nodupKeys_setKey {κ α : Type} [DecidableEq κ]
    {l : List (κ × α)} (q : κ) (v : α) (h : nodupKeys l) :
    nodupKeys (setKey l q v) := by
  simp only [nodupKeys, setKey, List.map_cons, List.nodup_cons]
  exact ⟨not_mem_keys_eraseKey l q, nodupKeys_eraseKey q h⟩

theorem lookupD_of_not_mem_keys {κ α : Type} [DecidableEq κ] (d : α)
    {l : List (κ × α)} {q : κ} (h : q ∉ l.map Prod.fst) :
    lookupD d l q = d := by
  induction l with
  | nil => rfl
  | cons hd t ih =>
    obtain ⟨k, v⟩ := hd
    simp only [List.map_cons, List.mem_cons] at h
    push_neg at h
    simp only [lookupD, if_neg h.1]
    exact ih h.2

theorem eraseKey_of_not_mem_keys {κ α : Type} [DecidableEq κ]
    {l : List (κ × α)} {q : κ} (h : q ∉ l.map Prod.fst) :
    eraseKey l q = l := by
  induction l with
  | nil => rfl
  | cons hd t ih =>
    obtain ⟨k, v⟩ := hd
    simp only [List.map_cons, List.mem_cons] at h
    push_neg at h
    simp only [eraseKey, if_neg h.1]
    rw [ih h.2]

theorem sumVals_eraseKey {κ : Type} [DecidableEq κ]
    {l : List (κ × Int)} (q : κ) (h : nodupKeys l) :
    sumVals (eraseKey l q) = sumVals l - lookupD 0 l q := by
  induction l with
  | nil => simp [eraseKey, sumVals, lookupD]
  | cons hd t ih =>
    obtain ⟨k, v⟩ := hd
    simp only [nodupKeys, List.map_cons, List.nodup_cons] at h
    by_cases hk : q = k
    · subst hk
      rw [show eraseKey ((q, v) :: t) q = eraseKey t q from if_pos rfl,
        eraseKey_of_not_mem_keys h.1]
      simp [sumVals, lookupD]
    · have hne : q ≠ k := hk
      simp only [eraseKey, if_neg hk, sumVals, List.map_cons, List.sum_cons,
        lookupD, if_neg hne]
      have := ih h.2
      simp only [sumVals] at this
      omega

theorem sumVals_setKey {κ : Type} [DecidableEq κ]
    {l : List (κ × Int)} (q : κ) (v : Int) (h : nodupKeys l) :
    sumVals (setKey l q v) = sumVals l - lookupD 0 l q + v := by
  simp only [setKey, sumVals, List.map_cons, List.sum_cons]
  have := sumVals_eraseKey q h
  simp only [sumVals] at this
  omega

/-! ### Success characterizations of the helpers -/

theorem except_bind_ok {ε α β : Type} (e : Except ε α) (f : α → Except ε β)
    (b : β) :
    (e >>= f) = Except.ok b ↔ ∃ a, e = Except.ok a ∧ f a = Except.ok b := by
  cases e <;> simp [Bind.bind, Except.bind]

theorem require_auth_eq_ok {auths : List Nat} {a : Nat} {u : Unit} :
    require_auth auths a = Except.ok u ↔ a ∈ auths := by
  by_cases h : a ∈ auths <;> simp [require_auth, h]

theorem check_nonnegative_amount_eq_ok {amount : Int} {u : Unit} :
    check_nonnegative_amount amount = Except.ok u ↔ 0 ≤ amount := by
  by_cases h : amount < 0
  · simp only [check_nonnegative_amount, if_pos h]
    constructor
    · intro hc
      exact absurd hc (by simp)
    · omega
  · simp only [check_nonnegative_amount, if_neg h]
    constructor
    · intro _
      omega
    · intro _
      trivial

theorem check_admin_eq_ok {s : TokenState} {c : Nat} {u : Unit} :
    check_admin s c = Except.ok u ↔ s.admin = some c := by
  cases ha : s.admin with
  | none => simp [check_admin, ha]
  | some a =>
    by_cases hc : c = a <;> simp [check_admin, ha, hc]
    exact fun h => hc h.symm

theorem checked_add_i128_eq_ok {a b r : Int} :
    checked_add_i128 a b = Except.ok r ↔
      (a + b ≤ I128MAX ∧ I128MIN ≤ a + b) ∧ r = a + b := by
  by_cases h : a + b > I128MAX ∨ a + b < I128MIN
  · simp only [checked_add_i128, if_pos h]
    constructor
    · intro hc
      exact absurd hc (by simp)
    · intro ⟨⟨h1, h2⟩, _⟩
      omega
  · simp only [checked_add_i128, if_neg h, Except.ok.injEq]
    push_neg at h
    constructor
    · intro hr
      exact ⟨⟨h.1, h.2⟩, hr.symm⟩
    · intro ⟨_, hr⟩
      exact hr.symm

theorem spend_balance_eq_ok {s s' : TokenState} {id : Nat} {amount : Int} :
    spend_balance s id amount = Except.ok s' ↔
      amount ≤ read_balance s id ∧
      s' = { s with
              balances := setKey s.balances id (read_balance s id - amount) }
    := by
  by_cases h : amount > read_balance s id
  · simp only [spend_balance, if_pos h]
    constructor
    · intro hc
      exact absurd hc (by simp)
    · intro ⟨h1, _⟩
      omega
  · simp only [spend_balance, if_neg h, Except.ok.injEq]
    push_neg at h
    constructor
    · intro hr
      exact ⟨h, hr.symm⟩
    · intro ⟨_, hr⟩
      exact hr.symm

theorem receive_balance_eq_ok {s s' : TokenState} {id : Nat} {amount : Int} :
    receive_balance s id amount = Except.ok s' ↔
      (read_balance s id + amount ≤ I128MAX ∧
        I128MIN ≤ read_balance s id + amount) ∧
      s' = { s with
              balances := setKey s.balances id (read_balance s id + amount) }
    := by
  simp only [receive_balance, except_bind_ok, checked_add_i128_eq_ok]
  constructor
  · intro ⟨a, ⟨hb, ha⟩, hok⟩
    subst ha
    simp only [Except.ok.injEq] at hok
    exact ⟨hb, hok.symm⟩
  · intro ⟨hb, hs⟩
    exact ⟨read_balance s id + amount, ⟨hb, rfl⟩, by rw [hs]⟩

theorem spend_allowance_eq_ok {s s' : TokenState} {owner spender : Nat}
    {amount : Int} :
    spend_allowance s owner spender amount = Except.ok s' ↔
      amount ≤ read_allowance s owner spender ∧
      s' = write_allowance s owner spender
        (read_allowance s owner spender - amount) := by
  by_cases h : amount > read_allowance s owner spender
  · simp only [spend_allowance, if_pos h]
    constructor
    · intro hc
      exact absurd hc (by simp)
    · intro ⟨h1, _⟩
      omega
  · simp only [spend_allowance, if_neg h, Except.ok.injEq]
    push_neg at h
    constructor
    · intro hr
      exact ⟨h, hr.symm⟩
    · intro ⟨_, hr⟩
      exact hr.symm

theorem mintTotal_cons (ev : Event) (t : List Event) :
    mintTotal (ev :: t) = evMint ev + mintTotal t := by
  cases ev <;> simp [mintTotal, evMint]

theorem burnTotal_cons (ev : Event) (t : List Event) :
    burnTotal (ev :: t) = evBurn ev + burnTotal t := by
  cases ev <;> simp [burnTotal, evBurn]

theorem lookupD_prop {κ α : Type} [DecidableEq κ] {P : α → Prop} {d : α}
    (hd : P d) {l : List (κ × α)} (h : ∀ p ∈ l, P p.2) (q : κ) :
    P (lookupD d l q) := by
  induction l with
  | nil => exact hd
  | cons hd' t ih =>
    obtain ⟨k, v⟩ := hd'
    simp only [lookupD]
    by_cases hk : q = k
    · simp only [if_pos hk]
      exact h (k, v) (List.mem_cons_self _ _)
    · simp only [if_neg hk]
      exact ih fun p hp => h p (List.mem_cons_of_mem _ hp)

theorem read_balance_bounds {s : TokenState}
    (hb : ∀ p ∈ s.balances, 0 ≤ p.2 ∧ p.2 ≤ I128MAX) (id : Nat) :
    0 ≤ read_balance s id ∧ read_balance s id ≤ I128MAX :=
  lookupD_prop (P := fun v => 0 ≤ v ∧ v ≤ I128MAX)
    ⟨le_refl 0, by norm_num [I128MAX]⟩ hb id

theorem read_allowance_nonneg {s : TokenState}
    (ha : ∀ p ∈ s.allowances, 0 ≤ p.2) (owner spender : Nat) :
    0 ≤ read_allowance s owner spender :=
  lookupD_prop (P := fun v => 0 ≤ v) le_rfl ha (owner, spender)

theorem spend_balance_inv {s s' : TokenState} {id : Nat} {amount : Int}
    (hnd : nodupKeys s.balances)
    (hb : ∀ p ∈ s.balances, 0 ≤ p.2 ∧ p.2 ≤ I128MAX)
    (hnn : 0 ≤ amount) (hok : spend_balance s id amount = Except.ok s') :
    nodupKeys s'.balances ∧ (∀ p ∈ s'.balances, 0 ≤ p.2 ∧ p.2 ≤ I128MAX) ∧
      sumVals s'.balances = sumVals s.balances - amount ∧
      s'.admin = s.admin ∧ s'.authFlags = s.authFlags ∧
      s'.allowances = s.allowances ∧ s'.decimal = s.decimal ∧
      s'.name = s.name ∧ s'.symbol = s.symbol ∧ s'.events = s.events := by
  rw [spend_balance_eq_ok] at hok
  obtain ⟨hle, rfl⟩ := hok
  obtain ⟨hb0, hbM⟩ := read_balance_bounds hb id
  refine ⟨nodupKeys_setKey _ _ hnd, ?_, ?_, rfl, rfl, rfl, rfl, rfl, rfl, rfl⟩
  · intro p hp
    rcases mem_setKey hp with rfl | hp
    · constructor
      · simp only
        omega
      · simp only
        omega
    · exact hb p hp
  · have hs := sumVals_setKey id (read_balance s id - amount) hnd
    simp only [read_balance] at hs ⊢
    rw [hs]
    omega

theorem receive_balance_inv {s s' : TokenState} {id : Nat} {amount : Int}
    (hnd : nodupKeys s.balances)
    (hb : ∀ p ∈ s.balances, 0 ≤ p.2 ∧ p.2 ≤ I128MAX)
    (hnn : 0 ≤ amount) (hok : receive_balance s id amount = Except.ok s') :
    nodupKeys s'.balances ∧ (∀ p ∈ s'.balances, 0 ≤ p.2 ∧ p.2 ≤ I128MAX) ∧
      sumVals s'.balances = sumVals s.balances + amount ∧
      s'.admin = s.admin ∧ s'.authFlags = s.authFlags ∧
      s'.allowances = s.allowances ∧ s'.decimal = s.decimal ∧
      s'.name = s.name ∧ s'.symbol = s.symbol ∧ s'.events = s.events := by
  rw [receive_balance_eq_ok] at hok
  obtain ⟨⟨hleM, hgeM⟩, rfl⟩ := hok
  obtain ⟨hb0, hbM⟩ := read_balance_bounds hb id
  refine ⟨nodupKeys_setKey _ _ hnd, ?_, ?_, rfl, rfl, rfl, rfl, rfl, rfl, rfl⟩
  · intro p hp
    rcases mem_setKey hp with rfl | hp
    · constructor
      · simp only
        omega
      · simp only
        omega
    · exact hb p hp
  · have hs := sumVals_setKey id (read_balance s id + amount) hnd
    simp only [read_balance] at hs ⊢
    rw [hs]
    omega

theorem spend_allowance_inv {s s' : TokenState} {owner spender : Nat}
    {amount : Int}
    (hnd : nodupKeys s.allowances) (ha : ∀ p ∈ s.allowances, 0 ≤ p.2)
    (hok : spend_allowance s owner spender amount = Except.ok s') :
    nodupKeys s'.allowances ∧ (∀ p ∈ s'.allowances, 0 ≤ p.2) ∧
      s'.admin = s.admin ∧ s'.balances = s.balances ∧
      s'.authFlags = s.authFlags ∧ s'.decimal = s.decimal ∧
      s'.name = s.name ∧ s'.symbol = s.symbol ∧ s'.events = s.events := by
  rw [spend_allowance_eq_ok] at hok
  obtain ⟨hle, rfl⟩ := hok
  have hnn := read_allowance_nonneg ha owner spender
  refine ⟨?_, ?_, rfl, rfl, rfl, rfl, rfl, rfl, rfl⟩
  · exact nodupKeys_setKey _ _ hnd
  · intro p hp
    simp only [write_allowance] at hp
    rcases mem_setKey hp with rfl | hp
    · simp only
      omega
    · exact ha p hp

theorem init_preserves {s s' : TokenState} {a d : Nat} {nm sym : List Nat}
    (h : LedgerInv s) (hok : Token.init a d nm sym s = Except.ok s') :
    LedgerInv s' := by
  simp only [Token.init] at hok
  split at hok
  · exact absurd hok (by simp)
  · split at hok
    · exact absurd hok (by simp)
    · rename_i hd
      simp only [Except.ok.injEq] at hok
      subst hok
      refine ⟨h.balNodup, h.allowNodup, h.balBounds, h.allowNonneg,
        h.conserve, ?_⟩
      intro d' hd'
      simp only [write_symbol, write_name, write_decimal, write_administrator,
        Option.some.injEq] at hd'
      omega

theorem incr_allow_preserves {s s' : TokenState} {auths : List Nat}
    {owner spender : Nat} {amount : Int}
    (h : LedgerInv s)
    (hok : Token.incr_allow auths owner spender amount s = Except.ok s') :
    LedgerInv s' := by
  simp only [Token.incr_allow, except_bind_ok] at hok
  obtain ⟨u1, h1, hok⟩ := hok
  obtain ⟨u2, h2, hok⟩ := hok
  obtain ⟨na, h3, hok⟩ := hok
  rw [check_nonnegative_amount_eq_ok] at h2
  rw [checked_add_i128_eq_ok] at h3
  obtain ⟨⟨hleM, hgeM⟩, rfl⟩ := h3
  simp only [Except.ok.injEq] at hok
  subst hok
  have hnn := read_allowance_nonneg h.allowNonneg owner spender
  refine ⟨h.balNodup, ?_, h.balBounds, ?_, ?_, h.decBound⟩
  · exact nodupKeys_setKey _ _ h.allowNodup
  · intro p hp
    simp only [emit, write_allowance] at hp
    rcases mem_setKey hp with rfl | hp
    · simp only
      omega
    · exact h.allowNonneg p hp
  · have hc := h.conserve
    simp only [emit, write_allowance, mintTotal_cons, burnTotal_cons,
      evMint, evBurn]
    omega

theorem decr_allow_preserves {s s' : TokenState} {auths : List Nat}
    {owner spender : Nat} {amount : Int}
    (h : LedgerInv s)
    (hok : Token.decr_allow auths owner spender amount s = Except.ok s') :
    LedgerInv s' := by
  simp only [Token.decr_allow, except_bind_ok] at hok
  obtain ⟨u1, h1, hok⟩ := hok
  obtain ⟨u2, h2, hok⟩ := hok
  rw [check_nonnegative_amount_eq_ok] at h2
  simp only [Except.ok.injEq] at hok
  subst hok
  have hnn := read_allowance_nonneg h.allowNonneg owner spender
  by_cases hcase : amount ≥ read_allowance s owner spender <;>
    [simp only [if_pos hcase]; simp only [if_neg hcase]] <;>
    push_neg at hcase <;>
    refine ⟨h.balNodup, ?_, h.balBounds, ?_, ?_, h.decBound⟩
  · exact nodupKeys_setKey _ _ h.allowNodup
  · intro p hp
    simp only [emit, write_allowance] at hp
    rcases mem_setKey hp with rfl | hp
    · simp only
      omega
    · exact h.allowNonneg p hp
  · have hc := h.conserve
    simp only [emit, write_allowance, mintTotal_cons, burnTotal_cons,
      evMint, evBurn]
    omega
  · exact nodupKeys_setKey _ _ h.allowNodup
  · intro p hp
    simp only [emit, write_allowance] at hp
    rcases mem_setKey hp with rfl | hp
    · simp only
      omega
    · exact h.allowNonneg p hp
  · have hc := h.conserve
    simp only [emit, write_allowance, mintTotal_cons, burnTotal_cons,
      evMint, evBurn]
    omega

theorem transfer_preserves {s s' : TokenState} {src dst : Nat} {amount : Int}
    (h : LedgerInv s)
    (hok : Token.transfer src dst amount s = Except.ok s') :
    LedgerInv s' := by
  simp only [Token.transfer, except_bind_ok] at hok
  obtain ⟨u1, h1, hok⟩ := hok
  obtain ⟨s1, hsp, hok⟩ := hok
  obtain ⟨s2, hrc, hok⟩ := hok
  rw [check_nonnegative_amount_eq_ok] at h1
  simp only [Except.ok.injEq] at hok
  subst hok
  obtain ⟨nd1, bb1, sum1, ad1, af1, al1, dc1, nm1, sy1, ev1⟩ :=
    spend_balance_inv h.balNodup h.balBounds h1 hsp
  obtain ⟨nd2, bb2, sum2, ad2, af2, al2, dc2, nm2, sy2, ev2⟩ :=
    receive_balance_inv nd1 bb1 h1 hrc
  refine ⟨nd2, ?_, bb2, ?_, ?_, ?_⟩
  · show nodupKeys s2.allowances
    rw [al2, al1]
    exact h.allowNodup
  · show ∀ p ∈ s2.allowances, 0 ≤ p.2
    rw [al2, al1]
    exact h.allowNonneg
  · show sumVals s2.balances =
      mintTotal (Event.transferEv src dst amount :: s2.events) -
        burnTotal (Event.transferEv src dst amount :: s2.events)
    rw [mintTotal_cons, burnTotal_cons, ev2, ev1]
    have hc := h.conserve
    simp only [evMint, evBurn]
    omega
  · intro d' hd'
    simp only [emit] at hd'
    rw [dc2, dc1] at hd'
    exact h.decBound d' hd'

theorem transfer_from_preserves {s s' : TokenState} {auths : List Nat}
    {spender src dst : Nat} {amount : Int}
    (h : LedgerInv s)
    (hok : Token.transfer_from auths spender src dst amount s = Except.ok s') :
    LedgerInv s' := by
  simp only [Token.transfer_from, except_bind_ok] at hok
  obtain ⟨u1, h1, hok⟩ := hok
  obtain ⟨u2, h2, hok⟩ := hok
  obtain ⟨s1, hal, hok⟩ := hok
  obtain ⟨s2, hsp, hok⟩ := hok
  obtain ⟨s3, hrc, hok⟩ := hok
  rw [check_nonnegative_amount_eq_ok] at h2
  simp only [Except.ok.injEq] at hok
  subst hok
  obtain ⟨and1, an1, ad1, bl1, af1, dc1, nm1, sy1, ev1⟩ :=
    spend_allowance_inv h.allowNodup h.allowNonneg hal
  have bnd1 : nodupKeys s1.balances := by
    rw [bl1]
    exact h.balNodup
  have bbb1 : ∀ p ∈ s1.balances, 0 ≤ p.2 ∧ p.2 ≤ I128MAX := by
    rw [bl1]
    exact h.balBounds
  obtain ⟨nd2, bb2, sum2, ad2, af2, al2, dc2, nm2, sy2, ev2⟩ :=
    spend_balance_inv bnd1 bbb1 h2 hsp
  obtain ⟨nd3, bb3, sum3, ad3, af3, al3, dc3, nm3, sy3, ev3⟩ :=
    receive_balance_inv nd2 bb2 h2 hrc
  refine ⟨nd3, ?_, bb3, ?_, ?_, ?_⟩
  · show nodupKeys s3.allowances
    rw [al3, al2]
    exact and1
  · show ∀ p ∈ s3.allowances, 0 ≤ p.2
    rw [al3, al2]
    exact an1
  · show sumVals s3.balances =
      mintTotal (Event.transferEv src dst amount :: s3.events) -
        burnTotal (Event.transferEv src dst amount :: s3.events)
    rw [mintTotal_cons, burnTotal_cons, ev3, ev2, ev1]
    have hc := h.conserve
    have hb1 : sumVals s1.balances = sumVals s.balances := by
      rw [bl1]
    simp only [evMint, evBurn]
    omega
  · intro d' hd'
    simp only [emit] at hd'
    rw [dc3, dc2, dc1] at hd'
    exact h.decBound d' hd'

theorem burn_preserves {s s' : TokenState} {auths : List Nat}
    {src : Nat} {amount : Int}
    (h : LedgerInv s)
    (hok : Token.burn auths src amount s = Except.ok s') :
    LedgerInv s' := by
  simp only [Token.burn, except_bind_ok] at hok
  obtain ⟨u1, h1, hok⟩ := hok
  obtain ⟨u2, h2, hok⟩ := hok
  obtain ⟨s1, hsp, hok⟩ := hok
  rw [check_nonnegative_amount_eq_ok] at h2
  simp only [Except.ok.injEq] at hok
  subst hok
  obtain ⟨nd1, bb1, sum1, ad1, af1, al1, dc1, nm1, sy1, ev1⟩ :=
    spend_balance_inv h.balNodup h.balBounds h2 hsp
  refine ⟨nd1, ?_, bb1, ?_, ?_, ?_⟩
  · show nodupKeys s1.allowances
    rw [al1]
    exact h.allowNodup
  · show ∀ p ∈ s1.allowances, 0 ≤ p.2
    rw [al1]
    exact h.allowNonneg
  · show sumVals s1.balances =
      mintTotal (Event.burnEv src amount :: s1.events) -
        burnTotal (Event.burnEv src amount :: s1.events)
    rw [mintTotal_cons, burnTotal_cons, ev1]
    have hc := h.conserve
    simp only [evMint, evBurn]
    omega
  · intro d' hd'
    simp only [emit] at hd'
    rw [dc1] at hd'
    exact h.decBound d' hd'

theorem burn_from_preserves {s s' : TokenState} {auths : List Nat}
    {spender src : Nat} {amount : Int}
    (h : LedgerInv s)
    (hok : Token.burn_from auths spender src amount s = Except.ok s') :
    LedgerInv s' := by
  simp only [Token.burn_from, except_bind_ok] at hok
  obtain ⟨u1, h1, hok⟩ := hok
  obtain ⟨u2, h2, hok⟩ := hok
  obtain ⟨s1, hal, hok⟩ := hok
  obtain ⟨s2, hsp, hok⟩ := hok
  rw [check_nonnegative_amount_eq_ok] at h2
  simp only [Except.ok.injEq] at hok
  subst hok
  obtain ⟨and1, an1, ad1, bl1, af1, dc1, nm1, sy1, ev1⟩ :=
    spend_allowance_inv h.allowNodup h.allowNonneg hal
  have bnd1 : nodupKeys s1.balances := by
    rw [bl1]
    exact h.balNodup
  have bbb1 : ∀ p ∈ s1.balances, 0 ≤ p.2 ∧ p.2 ≤ I128MAX := by
    rw [bl1]
    exact h.balBounds
  obtain ⟨nd2, bb2, sum2, ad2, af2, al2, dc2, nm2, sy2, ev2⟩ :=
    spend_balance_inv bnd1 bbb1 h2 hsp
  refine ⟨nd2, ?_, bb2, ?_, ?_, ?_⟩
  · show nodupKeys s2.allowances
    rw [al2]
    exact and1
  · show ∀ p ∈ s2.allowances, 0 ≤ p.2
    rw [al2]
    exact an1
  · show sumVals s2.balances =
      mintTotal (Event.burnEv src amount :: s2.events) -
        burnTotal (Event.burnEv src amount :: s2.events)
    rw [mintTotal_cons, burnTotal_cons, ev2, ev1]
    have hc := h.conserve
    have hb1 : sumVals s1.balances = sumVals s.balances := by
      rw [bl1]
    simp only [evMint, evBurn]
    omega
  · intro d' hd'
    simp only [emit] at hd'
    rw [dc2, dc1] at hd'
    exact h.decBound d' hd'

theorem clawback_preserves {s s' : TokenState} {auths : List Nat}
    {adminAddr src : Nat} {amount : Int}
    (h : LedgerInv s)
    (hok : Token.clawback auths adminAddr src amount s = Except.ok s') :
    LedgerInv s' := by
  simp only [Token.clawback, except_bind_ok] at hok
  obtain ⟨u1, h1, hok⟩ := hok
  obtain ⟨u2, h2, hok⟩ := hok
  obtain ⟨u3, h3, hok⟩ := hok
  obtain ⟨s1, hsp, hok⟩ := hok
  rw [check_nonnegative_amount_eq_ok] at h1
  simp only [Except.ok.injEq] at hok
  subst hok
  obtain ⟨nd1, bb1, sum1, ad1, af1, al1, dc1, nm1, sy1, ev1⟩ :=
    spend_balance_inv h.balNodup h.balBounds h1 hsp
  refine ⟨nd1, ?_, bb1, ?_, ?_, ?_⟩
  · show nodupKeys s1.allowances
    rw [al1]
    exact h.allowNodup
  · show ∀ p ∈ s1.allowances, 0 ≤ p.2
    rw [al1]
    exact h.allowNonneg
  · show sumVals s1.balances =
      mintTotal (Event.clawbackEv adminAddr src amount :: s1.events) -
        burnTotal (Event.clawbackEv adminAddr src amount :: s1.events)
    rw [mintTotal_cons, burnTotal_cons, ev1]
    have hc := h.conserve
    simp only [evMint, evBurn]
    omega
  · intro d' hd'
    simp only [emit] at hd'
    rw [dc1] at hd'
    exact h.decBound d' hd'

theorem set_auth_preserves {s s' : TokenState} {auths : List Nat}
    {adminAddr id : Nat} {authorize : Bool}
    (h : LedgerInv s)
    (hok : Token.set_auth auths adminAddr id authorize s = Except.ok s') :
    LedgerInv s' := by
  simp only [Token.set_auth, except_bind_ok] at hok
  obtain ⟨u1, h1, hok⟩ := hok
  obtain ⟨u2, h2, hok⟩ := hok
  simp only [Except.ok.injEq] at hok
  subst hok
  refine ⟨h.balNodup, h.allowNodup, h.balBounds, h.allowNonneg, ?_,
    h.decBound⟩
  have hc := h.conserve
  simp only [emit, write_authorization, mintTotal_cons, burnTotal_cons,
    evMint, evBurn]
  omega

theorem mint_preserves {s s' : TokenState} {auths : List Nat}
    {adminAddr dst : Nat} {amount : Int}
    (h : LedgerInv s)
    (hok : Token.mint auths adminAddr dst amount s = Except.ok s') :
    LedgerInv s' := by
  simp only [Token.mint, except_bind_ok] at hok
  obtain ⟨u1, h1, hok⟩ := hok
  obtain ⟨u2, h2, hok⟩ := hok
  obtain ⟨u3, h3, hok⟩ := hok
  obtain ⟨s1, hrc, hok⟩ := hok
  rw [check_nonnegative_amount_eq_ok] at h1
  simp only [Except.ok.injEq] at hok
  subst hok
  obtain ⟨nd1, bb1, sum1, ad1, af1, al1, dc1, nm1, sy1, ev1⟩ :=
    receive_balance_inv h.balNodup h.balBounds h1 hrc
  refine ⟨nd1, ?_, bb1, ?_, ?_, ?_⟩
  · show nodupKeys s1.allowances
    rw [al1]
    exact h.allowNodup
  · show ∀ p ∈ s1.allowances, 0 ≤ p.2
    rw [al1]
    exact h.allowNonneg
  · show sumVals s1.balances =
      mintTotal (Event.mintEv adminAddr dst amount :: s1.events) -
        burnTotal (Event.mintEv adminAddr dst amount :: s1.events)
    rw [mintTotal_cons, burnTotal_cons, ev1]
    have hc := h.conserve
    simp only [evMint, evBurn]
    omega
  · intro d' hd'
    simp only [emit] at hd'
    rw [dc1] at hd'
    exact h.decBound d' hd'

theorem set_admin_preserves {s s' : TokenState} {auths : List Nat}
    {adminAddr newAdmin : Nat}
    (h : LedgerInv s)
    (hok : Token.set_admin auths adminAddr newAdmin s = Except.ok s') :
    LedgerInv s' := by
  simp only [Token.set_admin, except_bind_ok] at hok
  obtain ⟨u1, h1, hok⟩ := hok
  obtain ⟨u2, h2, hok⟩ := hok
  simp only [Except.ok.injEq] at hok
  subst hok
  refine ⟨h.balNodup, h.allowNodup, h.balBounds, h.allowNonneg, ?_,
    h.decBound⟩
  have hc := h.conserve
  simp only [emit, write_administrator, mintTotal_cons, burnTotal_cons,
    evMint, evBurn]
  omega

theorem exec_ok_preserves {s s' : TokenState} {c : Call}
    (h : LedgerInv s) (hex : exec s c = Except.ok s') : LedgerInv s' := by
  obtain ⟨auths, op⟩ := c
  cases op <;> simp only [exec] at hex
  exacts [init_preserves h hex, incr_allow_preserves h hex,
    decr_allow_preserves h hex, transfer_preserves h hex,
    transfer_from_preserves h hex, burn_preserves h hex,
    burn_from_preserves h hex, clawback_preserves h hex,
    set_auth_preserves h hex, mint_preserves h hex,
    set_admin_preserves h hex]

theorem step_preserves (s : TokenState) (c : Call) (h : LedgerInv s) :
    LedgerInv (step s c) := by
  unfold step
  cases hex : exec s c with
  | ok s' => exact exec_ok_preserves h hex
  | error e => exact h

theorem emptyState_inv : LedgerInv emptyState := by
  refine ⟨?_, ?_, ?_, ?_, ?_, ?_⟩ <;>
    simp [emptyState, nodupKeys, sumVals, mintTotal, burnTotal]

theorem foldl_step_inv (calls : List Call) :
    ∀ s, LedgerInv s → LedgerInv (List.foldl step s calls) := by
  induction calls with
  | nil => exact fun s h => h
  | cons c t ih => exact fun s h => ih (step s c) (step_preserves s c h)

theorem run_inv (calls : List Call) : LedgerInv (run calls) :=
  foldl_step_inv calls emptyState emptyState_inv

/-! ### Reduction helpers for `Except` chains -/

theorem except_ok_bind {ε α β : Type} (a : α) (f : α → Except ε β) :
    (Except.ok a >>= f : Except ε β) = f a := rfl

theorem except_error_bind {ε α β : Type} (e : ε) (f : α → Except ε β) :
    (Except.error e >>= f : Except ε β) = Except.error e := rfl

theorem spend_balance_effect {s s' : TokenState} {id : Nat} {amount : Int}
    (hok : spend_balance s id amount = Except.ok s') :
    read_balance s' id = read_balance s id - amount ∧
      (∀ x, x ≠ id → read_balance s' x = read_balance s x) := by
  rw [spend_balance_eq_ok] at hok
  obtain ⟨hle, rfl⟩ := hok
  constructor
  · simp only [read_balance]
    exact lookupD_setKey_self 0 s.balances id _
  · intro x hx
    simp only [read_balance]
    exact lookupD_setKey_ne 0 s.balances id x _ hx

theorem receive_balance_effect {s s' : TokenState} {id : Nat} {amount : Int}
    (hok : receive_balance s id amount = Except.ok s') :
    read_balance s' id = read_balance s id + amount ∧
      (∀ x, x ≠ id → read_balance s' x = read_balance s x) := by
  rw [receive_balance_eq_ok] at hok
  obtain ⟨hb, rfl⟩ := hok
  constructor
  · simp only [read_balance]
    exact lookupD_setKey_self 0 s.balances id _
  · intro x hx
    simp only [read_balance]
    exact lookupD_setKey_ne 0 s.balances id x _ hx

/-! ### The claims -/

/-- C1: Conservation of value.  Starting from the empty ledger, after any
sequence of invocations (failed ones retain no state) the sum of all
account balances equals the total of `mint` events minus the total of
`burn` and `clawback` events in the log.  `burn` and `burn_from` both emit
a `burn` event and `transfer_from` emits a `transfer` event, exactly as in
`contract.rs`, so `burnTotal` is the sum of all burn, burn-from and
clawback amounts, and no other operation (transfer, transfer_from,
allowance adjustment, set_auth, set_admin) contributes to either total. -/
theorem C1_conservation_of_value (calls : List Call) :
    sumVals (run calls).balances =
      mintTotal (run calls).events - burnTotal (run calls).events :=
  (run_inv calls).conserve

/-- C2: Non-negativity.  After any sequence of invocations starting from
the empty ledger, every account balance and every (owner, spender)
allowance observable through the query operations is non-negative.
Operations are atomic (a failed invocation retains no state), so no
intermediate negative value is ever observable. -/
theorem C2_nonnegativity (calls : List Call) (a owner spender : Nat) :
    0 ≤ Token.balance (run calls) a ∧
      0 ≤ Token.allowance (run calls) owner spender :=
  ⟨(read_balance_bounds (run_inv calls).balBounds a).1,
   read_allowance_nonneg (run_inv calls).allowNonneg owner spender⟩

/-- C3: Error atomicity of `initialize` on bad metadata.  On an
uninitialized ledger, `initialize` with a decimal that does not fit in a
`u8` fails with `InvalidMetadata`; the invocation retains no state (the
admin written before the decimal conversion in `contract.rs` line 66 is
discarded by the host on panic), and a subsequent `initialize` with valid
arguments succeeds and writes admin and metadata. -/
theorem C3_invalid_metadata_atomic (s : TokenState) (auths : List Nat)
    (a d : Nat) (nm sym : List Nat) (a2 d2 : Nat) (nm2 sym2 : List Nat)
    (huninit : s.admin = none) (hbad : 256 ≤ d) (hgood : d2 ≤ 255) :
    Token.init a d nm sym s = Except.error Err.InvalidMetadata ∧
      step s ⟨auths, Op.initOp a d nm sym⟩ = s ∧
      (∃ s', Token.init a2 d2 nm2 sym2 s = Except.ok s' ∧
        s'.admin = some a2 ∧ s'.decimal = some d2 ∧
        s'.name = some nm2 ∧ s'.symbol = some sym2) := by
  have hadm : has_administrator s = false := by
    simp [has_administrator, huninit]
  have h1 : Token.init a d nm sym s = Except.error Err.InvalidMetadata := by
    simp only [Token.init, hadm, Bool.false_eq_true, if_false, if_pos hbad]
  refine ⟨h1, ?_, ?_⟩
  · unfold step
    simp only [exec]
    rw [h1]
  · refine ⟨write_symbol (write_name
      (write_decimal (write_administrator s a2) d2) nm2) sym2, ?_,
      rfl, rfl, rfl, rfl⟩
    simp only [Token.init, hadm, Bool.false_eq_true, if_false]
    rw [if_neg (by omega)]

/-- C3 witness: on the empty ledger, `initialize` with decimal 300 fails
with `InvalidMetadata` and retains nothing, and a later `initialize` with
decimal 7 succeeds. -/
theorem C3_invalid_metadata_atomic_witness :
    emptyState.admin = none ∧ 256 ≤ 300 ∧ 7 ≤ 255 ∧
      (Token.init 1 300 [2] [3] emptyState =
          Except.error Err.InvalidMetadata ∧
        step emptyState ⟨[], Op.initOp 1 300 [2] [3]⟩ = emptyState ∧
        (∃ s', Token.init 4 7 [5] [6] emptyState = Except.ok s' ∧
          s'.admin = some 4 ∧ s'.decimal = some 7 ∧
          s'.name = some [5] ∧ s'.symbol = some [6])) :=
  ⟨rfl, by decide, by decide,
    C3_invalid_metadata_atomic emptyState [] 1 300 [2] [3] 4 7 [5] [6]
      rfl (by decide) (by decide)⟩

/-- C4 counterexample: the claim says every public operation other than
`initialize` fails with `Uninitialized` before `initialize` has ever
succeeded.  In the code, `transfer` and the allowance operations perform
no initialization check at all: on the empty (uninitialized) ledger,
`transfer` of amount 0 succeeds and so does `incr_allow`, each mutating
state and emitting an event. -/
theorem C4_counterexample :
    emptyState.admin = none ∧
      Token.transfer 1 2 0 emptyState =
        Except.ok { emptyState with
                      balances := [(2, 0), (1, 0)],
                      events := [Event.transferEv 1 2 0] } ∧
      Token.incr_allow [1] 1 2 5 emptyState =
        Except.ok { emptyState with
                      allowances := [((1, 2), 5)],
                      events := [Event.incrAllowEv 1 2 5] } :=
  ⟨rfl, by decide, by decide⟩

/-- C4 amended: before `initialize` has ever succeeded, only the
admin-gated operations (`mint`, `clawback`, `set_auth`, `set_admin`) fail
with `Uninitialized` (through `check_admin` reading the unset admin slot)
and leave all state unchanged; `transfer`, the allowance operations,
`burn`, `transfer_from`, `burn_from` and the queries perform no
initialization check and can succeed in the Uninitialized state. -/
theorem C4_uninitialized_gates_admin_ops (s : TokenState) (auths : List Nat)
    (a src dst id na : Nat) (amount : Int) (authorize : Bool)
    (huninit : s.admin = none) (hnn : 0 ≤ amount) :
    Token.mint auths a dst amount s = Except.error Err.Uninitialized ∧
      Token.clawback auths a src amount s = Except.error Err.Uninitialized ∧
      Token.set_auth auths a id authorize s =
        Except.error Err.Uninitialized ∧
      Token.set_admin auths a na s = Except.error Err.Uninitialized ∧
      step s ⟨auths, Op.mintOp a dst amount⟩ = s ∧
      step s ⟨auths, Op.clawbackOp a src amount⟩ = s ∧
      step s ⟨auths, Op.setAuthOp a id authorize⟩ = s ∧
      step s ⟨auths, Op.setAdminOp a na⟩ = s := by
  have hchk : check_nonnegative_amount amount = Except.ok () := by
    simp [check_nonnegative_amount, not_lt.2 hnn]
  have hca : check_admin s a = Except.error Err.Uninitialized := by
    simp only [check_admin, huninit]
  have e1 : Token.mint auths a dst amount s =
      Except.error Err.Uninitialized := by
    simp only [Token.mint, hchk, except_ok_bind, hca, except_error_bind]
  have e2 : Token.clawback auths a src amount s =
      Except.error Err.Uninitialized := by
    simp only [Token.clawback, hchk, except_ok_bind, hca, except_error_bind]
  have e3 : Token.set_auth auths a id authorize s =
      Except.error Err.Uninitialized := by
    simp only [Token.set_auth, hca, except_error_bind]
  have e4 : Token.set_admin auths a na s =
      Except.error Err.Uninitialized := by
    simp only [Token.set_admin, hca, except_error_bind]
  refine ⟨e1, e2, e3, e4, ?_, ?_, ?_, ?_⟩
  · unfold step
    simp only [exec]
    rw [e1]
  · unfold step
    simp only [exec]
    rw [e2]
  · unfold step
    simp only [exec]
    rw [e3]
  · unfold step
    simp only [exec]
    rw [e4]

/-- C4 amended witness: on the empty ledger the four admin-gated
operations fail with `Uninitialized` and change nothing. -/
theorem C4_uninitialized_gates_admin_ops_witness :
    emptyState.admin = none ∧ 0 ≤ (1 : Int) ∧
      (Token.mint [1] 1 2 1 emptyState = Except.error Err.Uninitialized ∧
        Token.clawback [1] 1 3 1 emptyState =
          Except.error Err.Uninitialized ∧
        Token.set_auth [1] 1 4 false emptyState =
          Except.error Err.Uninitialized ∧
        Token.set_admin [1] 1 5 emptyState =
          Except.error Err.Uninitialized ∧
        step emptyState ⟨[1], Op.mintOp 1 2 1⟩ = emptyState ∧
        step emptyState ⟨[1], Op.clawbackOp 1 3 1⟩ = emptyState ∧
        step emptyState ⟨[1], Op.setAuthOp 1 4 false⟩ = emptyState ∧
        step emptyState ⟨[1], Op.setAdminOp 1 5⟩ = emptyState) :=
  ⟨rfl, by decide,
    C4_uninitialized_gates_admin_ops emptyState [1] 1 3 2 4 5 1 false
      rfl (by decide)⟩

/-- C5 counterexample: the claim says `transfer(from, to, amount)` succeeds
whenever `0 ≤ amount ≤ balance(from)`.  In the reachable state produced by
minting `I128MAX` to account 2 and `1` to account 3, the transfer of `1`
from 3 to 2 satisfies that precondition yet fails with `Overflow`, because
crediting the recipient would exceed the `i128` range. -/
theorem C5_counterexample :
    0 ≤ (1 : Int) ∧
      1 ≤ Token.balance (run [⟨[], Op.initOp 1 7 [] []⟩,
        ⟨[1], Op.mintOp 1 2 I128MAX⟩, ⟨[1], Op.mintOp 1 3 1⟩]) 3 ∧
      Token.transfer 3 2 1 (run [⟨[], Op.initOp 1 7 [] []⟩,
        ⟨[1], Op.mintOp 1 2 I128MAX⟩, ⟨[1], Op.mintOp 1 3 1⟩]) =
        Except.error Err.Overflow :=
  ⟨by decide, by decide, by decide⟩

/-- C5 amended: plain `transfer` requires no authorization of the sender
(the check is commented out in `contract.rs` line 118, so the embedded
`transfer` takes no authorization input at all and its result is identical
for every invocation context).  In every reachable ledger state, for every
`from`, `to` and `amount` with `0 ≤ amount ≤ balance(from)` such that
crediting the recipient does not overflow `i128`
(`balance(to) + amount ≤ I128MAX` when `to ≠ from`), the transfer succeeds,
debiting `from` and crediting `to`. -/
theorem C5_transfer_no_auth_needed (calls : List Call) (src dst : Nat)
    (amount : Int) (hnn : 0 ≤ amount)
    (hbal : amount ≤ Token.balance (run calls) src)
    (hroom : src ≠ dst → Token.balance (run calls) dst + amount ≤ I128MAX) :
    ∃ s', Token.transfer src dst amount (run calls) = Except.ok s' ∧
      (src ≠ dst →
        Token.balance s' src = Token.balance (run calls) src - amount ∧
        Token.balance s' dst = Token.balance (run calls) dst + amount) ∧
      (src = dst → Token.balance s' src = Token.balance (run calls) src) := by
  have hinv := run_inv calls
  simp only [Token.balance] at hbal hroom ⊢
  generalize hg : run calls = s at hinv hbal hroom ⊢
  obtain ⟨hb0, hbM⟩ := read_balance_bounds hinv.balBounds src
  obtain ⟨hd0, hdM⟩ := read_balance_bounds hinv.balBounds dst
  have hmin : I128MIN ≤ 0 := by norm_num [I128MIN]
  have h1 : check_nonnegative_amount amount = Except.ok () := by
    simp [check_nonnegative_amount, not_lt.2 hnn]
  obtain ⟨s1, hS1⟩ : ∃ s1, spend_balance s src amount = Except.ok s1 :=
    ⟨_, spend_balance_eq_ok.mpr ⟨hbal, rfl⟩⟩
  have heff1 := spend_balance_effect hS1
  have hbound1 : read_balance s1 dst + amount ≤ I128MAX := by
    by_cases hsd : src = dst
    · subst hsd
      rw [heff1.1]
      omega
    · rw [heff1.2 dst (fun h => hsd h.symm)]
      exact hroom hsd
  have hbound2 : I128MIN ≤ read_balance s1 dst + amount := by
    by_cases hsd : src = dst
    · subst hsd
      rw [heff1.1]
      omega
    · rw [heff1.2 dst (fun h => hsd h.symm)]
      omega
  obtain ⟨s2, hS2⟩ : ∃ s2, receive_balance s1 dst amount = Except.ok s2 :=
    ⟨_, receive_balance_eq_ok.mpr ⟨⟨hbound1, hbound2⟩, rfl⟩⟩
  have heff2 := receive_balance_effect hS2
  have htr : Token.transfer src dst amount s =
      Except.ok (emit s2 (Event.transferEv src dst amount)) := by
    simp only [Token.transfer, h1, except_ok_bind, hS1, hS2]
  refine ⟨emit s2 (Event.transferEv src dst amount), htr, ?_, ?_⟩
  · intro hsd
    have e1 : read_balance (emit s2 (Event.transferEv src dst amount)) src =
        read_balance s2 src := rfl
    have e2 : read_balance (emit s2 (Event.transferEv src dst amount)) dst =
        read_balance s2 dst := rfl
    constructor
    · rw [e1, heff2.2 src hsd, heff1.1]
    · rw [e2, heff2.1, heff1.2 dst (fun h => hsd h.symm)]
  · intro hsd
    subst hsd
    have e1 : read_balance (emit s2 (Event.transferEv src src amount)) src =
        read_balance s2 src := rfl
    rw [e1, heff2.1, heff1.1]
    omega

/-- C5 amended witness: after minting 5 to account 2, transferring 3 from
account 2 to account 3 succeeds with no authorization, debiting 2 and
crediting 3. -/
theorem C5_transfer_no_auth_needed_witness :
    0 ≤ (3 : Int) ∧
      3 ≤ Token.balance
        (run [⟨[], Op.initOp 1 7 [] []⟩, ⟨[1], Op.mintOp 1 2 5⟩]) 2 ∧
      ((2 : Nat) ≠ 3 →
        Token.balance
            (run [⟨[], Op.initOp 1 7 [] []⟩, ⟨[1], Op.mintOp 1 2 5⟩]) 3 + 3 ≤
          I128MAX) ∧
      (∃ s', Token.transfer 2 3 3
          (run [⟨[], Op.initOp 1 7 [] []⟩, ⟨[1], Op.mintOp 1 2 5⟩]) =
            Except.ok s' ∧
        ((2 : Nat) ≠ 3 →
          Token.balance s' 2 = Token.balance
            (run [⟨[], Op.initOp 1 7 [] []⟩, ⟨[1], Op.mintOp 1 2 5⟩]) 2 - 3 ∧
          Token.balance s' 3 = Token.balance
            (run [⟨[], Op.initOp 1 7 [] []⟩, ⟨[1], Op.mintOp 1 2 5⟩]) 3 + 3) ∧
        ((2 : Nat) = 3 →
          Token.balance s' 2 = Token.balance
            (run [⟨[], Op.initOp 1 7 [] []⟩, ⟨[1], Op.mintOp 1 2 5⟩]) 2)) :=
  ⟨by decide, by decide, by decide,
    C5_transfer_no_auth_needed
      [⟨[], Op.initOp 1 7 [] []⟩, ⟨[1], Op.mintOp 1 2 5⟩] 2 3 3
      (by decide) (by decide) (by decide)⟩

/-- C6: Insufficient-allowance spend is atomic.  For an authorized spender
and a non-negative amount strictly greater than the current allowance,
both `transfer_from` and `burn_from` fail with `InsufficientAllowance`
(the allowance check runs before any balance access) and the invocation
leaves every balance and every allowance — the whole state — unchanged. -/
theorem C6_insufficient_allowance_atomic (s : TokenState) (auths : List Nat)
    (spender src dst : Nat) (amount : Int)
    (hauth : spender ∈ auths) (hnn : 0 ≤ amount)
    (hgt : Token.allowance s src spender < amount) :
    Token.transfer_from auths spender src dst amount s =
        Except.error Err.InsufficientAllowance ∧
      Token.burn_from auths spender src amount s =
        Except.error Err.InsufficientAllowance ∧
      step s ⟨auths, Op.transferFromOp spender src dst amount⟩ = s ∧
      step s ⟨auths, Op.burnFromOp spender src amount⟩ = s := by
  have h1 : require_auth auths spender = Except.ok () := by
    simp [require_auth, hauth]
  have h2 : check_nonnegative_amount amount = Except.ok () := by
    simp [check_nonnegative_amount, not_lt.2 hnn]
  have hgt' : amount > read_allowance s src spender := hgt
  have h3 : spend_allowance s src spender amount =
      Except.error Err.InsufficientAllowance := by
    simp only [spend_allowance, if_pos hgt']
  have ht : Token.transfer_from auths spender src dst amount s =
      Except.error Err.InsufficientAllowance := by
    simp only [Token.transfer_from, h1, h2, except_ok_bind, h3,
      except_error_bind]
  have hb : Token.burn_from auths spender src amount s =
      Except.error Err.InsufficientAllowance := by
    simp only [Token.burn_from, h1, h2, except_ok_bind, h3,
      except_error_bind]
  refine ⟨ht, hb, ?_, ?_⟩
  · unfold step
    simp only [exec]
    rw [ht]
  · unfold step
    simp only [exec]
    rw [hb]

/-- C6 witness: with `allowance(2, 3) = 20`, `transfer_from` and
`burn_from` of 999 by spender 3 fail with `InsufficientAllowance` and
leave the state unchanged (the scenario of the spec). -/
theorem C6_insufficient_allowance_atomic_witness :
    (3 : Nat) ∈ [3] ∧ 0 ≤ (999 : Int) ∧
      Token.allowance
          (run [⟨[], Op.initOp 1 7 [] []⟩, ⟨[2], Op.incrAllowOp 2 3 20⟩])
          2 3 < 999 ∧
      (Token.transfer_from [3] 3 2 4 999
          (run [⟨[], Op.initOp 1 7 [] []⟩, ⟨[2], Op.incrAllowOp 2 3 20⟩]) =
          Except.error Err.InsufficientAllowance ∧
        Token.burn_from [3] 3 2 999
          (run [⟨[], Op.initOp 1 7 [] []⟩, ⟨[2], Op.incrAllowOp 2 3 20⟩]) =
          Except.error Err.InsufficientAllowance ∧
        step (run [⟨[], Op.initOp 1 7 [] []⟩, ⟨[2], Op.incrAllowOp 2 3 20⟩])
            ⟨[3], Op.transferFromOp 3 2 4 999⟩ =
          run [⟨[], Op.initOp 1 7 [] []⟩, ⟨[2], Op.incrAllowOp 2 3 20⟩] ∧
        step (run [⟨[], Op.initOp 1 7 [] []⟩, ⟨[2], Op.incrAllowOp 2 3 20⟩])
            ⟨[3], Op.burnFromOp 3 2 999⟩ =
          run [⟨[], Op.initOp 1 7 [] []⟩, ⟨[2], Op.incrAllowOp 2 3 20⟩]) :=
  ⟨by decide, by decide, by decide,
    C6_insufficient_allowance_atomic
      (run [⟨[], Op.initOp 1 7 [] []⟩, ⟨[2], Op.incrAllowOp 2 3 20⟩])
      [3] 3 2 4 999 (by decide) (by decide) (by decide)⟩

/-- C7: Decrease-allowance clamps instead of failing.  For an authorized
owner and any non-negative amount, `decr_allow` always succeeds; when
`amount ≥` the current allowance the new allowance is exactly `0`, and
otherwise it is the current allowance minus `amount`. -/
theorem C7_decr_allow_clamps (s : TokenState) (auths : List Nat)
    (owner spender : Nat) (amount : Int)
    (hauth : owner ∈ auths) (hnn : 0 ≤ amount) :
    ∃ s', Token.decr_allow auths owner spender amount s = Except.ok s' ∧
      Token.allowance s' owner spender =
        (if Token.allowance s owner spender ≤ amount then 0
         else Token.allowance s owner spender - amount) := by
  have h1 : require_auth auths owner = Except.ok () := by
    simp [require_auth, hauth]
  have h2 : check_nonnegative_amount amount = Except.ok () := by
    simp [check_nonnegative_amount, not_lt.2 hnn]
  by_cases hc : Token.allowance s owner spender ≤ amount
  · have hc' : amount ≥ read_allowance s owner spender := hc
    refine ⟨emit (write_allowance s owner spender 0)
      (Event.decrAllowEv owner spender amount), ?_, ?_⟩
    · simp only [Token.decr_allow, h1, h2, except_ok_bind, if_pos hc']
    · rw [if_pos hc]
      simp only [Token.allowance, read_allowance, emit, write_allowance,
        lookupD_setKey_self]
  · push_neg at hc
    have hc' : ¬ amount ≥ read_allowance s owner spender := not_le.2 hc
    refine ⟨emit (write_allowance s owner spender
        (read_allowance s owner spender - amount))
      (Event.decrAllowEv owner spender amount), ?_, ?_⟩
    · simp only [Token.decr_allow, h1, h2, except_ok_bind, if_neg hc']
    · rw [if_neg (not_le.2 hc)]
      simp only [Token.allowance, read_allowance, emit, write_allowance,
        lookupD_setKey_self]

/-- C7 witness: on the empty ledger (allowance 0), decreasing by 5 clamps
the allowance to 0 instead of failing. -/
theorem C7_decr_allow_clamps_witness :
    (1 : Nat) ∈ [1] ∧ 0 ≤ (5 : Int) ∧
      (∃ s', Token.decr_allow [1] 1 2 5 emptyState = Except.ok s' ∧
        Token.allowance s' 1 2 =
          (if Token.allowance emptyState 1 2 ≤ 5 then 0
           else Token.allowance emptyState 1 2 - 5)) :=
  ⟨by decide, by decide,
    C7_decr_allow_clamps emptyState [1] 1 2 5 (by decide) (by decide)⟩

/-- C8: `initialize` is idempotent-rejecting.  Once an administrator is
set, any further `initialize` call, with any arguments, fails with
`AlreadyInitialized` and the invocation retains no state: administrator,
decimal, name and symbol all stay exactly as they were. -/
theorem C8_init_rejects_again (s : TokenState) (auths : List Nat)
    (a a2 d2 : Nat) (nm2 sym2 : List Nat)
    (hinit : s.admin = some a) :
    Token.init a2 d2 nm2 sym2 s = Except.error Err.AlreadyInitialized ∧
      step s ⟨auths, Op.initOp a2 d2 nm2 sym2⟩ = s := by
  have hadm : has_administrator s = true := by
    simp [has_administrator, hinit]
  have h1 : Token.init a2 d2 nm2 sym2 s =
      Except.error Err.AlreadyInitialized := by
    simp only [Token.init, hadm, if_true]
  refine ⟨h1, ?_⟩
  unfold step
  simp only [exec]
  rw [h1]

/-- C8 witness: after a successful `initialize`, a second `initialize`
with different arguments fails with `AlreadyInitialized` and the state —
admin and metadata included — is unchanged. -/
theorem C8_init_rejects_again_witness :
    (run [⟨[], Op.initOp 1 7 [] []⟩]).admin = some 1 ∧
      (Token.init 2 9 [3] [4] (run [⟨[], Op.initOp 1 7 [] []⟩]) =
          Except.error Err.AlreadyInitialized ∧
        step (run [⟨[], Op.initOp 1 7 [] []⟩])
            ⟨[2], Op.initOp 2 9 [3] [4]⟩ =
          run [⟨[], Op.initOp 1 7 [] []⟩]) :=
  ⟨by decide,
    C8_init_rejects_again (run [⟨[], Op.initOp 1 7 [] []⟩]) [2] 1 2 9 [3] [4]
      (by decide)⟩

/-- C9: Negative amounts are rejected before any mutation.  With the
actors authorized (in the code, `incr_allow`, `decr_allow`, `burn`,
`transfer_from` and `burn_from` call `require_auth` before the sign
check; `transfer`, `clawback` and `mint` reach the sign check first
unconditionally), every amount-taking mutating operation called with a
negative amount fails with `NegativeAmount` and the invocation leaves the
whole state — balances, allowances, admin, metadata and the event log —
unchanged. -/
theorem C9_negative_amount_rejected (s : TokenState) (auths : List Nat)
    (owner spender src dst a : Nat) (amount : Int)
    (hneg : amount < 0) (hown : owner ∈ auths) (hsp : spender ∈ auths)
    (hsrc : src ∈ auths) :
    Token.incr_allow auths owner spender amount s =
        Except.error Err.NegativeAmount ∧
      Token.decr_allow auths owner spender amount s =
        Except.error Err.NegativeAmount ∧
      Token.transfer src dst amount s = Except.error Err.NegativeAmount ∧
      Token.transfer_from auths spender src dst amount s =
        Except.error Err.NegativeAmount ∧
      Token.burn auths src amount s = Except.error Err.NegativeAmount ∧
      Token.burn_from auths spender src amount s =
        Except.error Err.NegativeAmount ∧
      Token.clawback auths a src amount s = Except.error Err.NegativeAmount ∧
      Token.mint auths a dst amount s = Except.error Err.NegativeAmount ∧
      step s ⟨auths, Op.incrAllowOp owner spender amount⟩ = s ∧
      step s ⟨auths, Op.decrAllowOp owner spender amount⟩ = s ∧
      step s ⟨auths, Op.transferOp src dst amount⟩ = s ∧
      step s ⟨auths, Op.transferFromOp spender src dst amount⟩ = s ∧
      step s ⟨auths, Op.burnOp src amount⟩ = s ∧
      step s ⟨auths, Op.burnFromOp spender src amount⟩ = s ∧
      step s ⟨auths, Op.clawbackOp a src amount⟩ = s ∧
      step s ⟨auths, Op.mintOp a dst amount⟩ = s := by
  have hchk : check_nonnegative_amount amount =
      Except.error Err.NegativeAmount := by
    simp only [check_nonnegative_amount, if_pos hneg]
  have ho : require_auth auths owner = Except.ok () := by
    simp [require_auth, hown]
  have hs2 : require_auth auths spender = Except.ok () := by
    simp [require_auth, hsp]
  have hs3 : require_auth auths src = Except.ok () := by
    simp [require_auth, hsrc]
  have e1 : Token.incr_allow auths owner spender amount s =
      Except.error Err.NegativeAmount := by
    simp only [Token.incr_allow, ho, except_ok_bind, hchk, except_error_bind]
  have e2 : Token.decr_allow auths owner spender amount s =
      Except.error Err.NegativeAmount := by
    simp only [Token.decr_allow, ho, except_ok_bind, hchk, except_error_bind]
  have e3 : Token.transfer src dst amount s =
      Except.error Err.NegativeAmount := by
    simp only [Token.transfer, hchk, except_error_bind]
  have e4 : Token.transfer_from auths spender src dst amount s =
      Except.error Err.NegativeAmount := by
    simp only [Token.transfer_from, hs2, except_ok_bind, hchk,
      except_error_bind]
  have e5 : Token.burn auths src amount s =
      Except.error Err.NegativeAmount := by
    simp only [Token.burn, hs3, except_ok_bind, hchk, except_error_bind]
  have e6 : Token.burn_from auths spender src amount s =
      Except.error Err.NegativeAmount := by
    simp only [Token.burn_from, hs2, except_ok_bind, hchk, except_error_bind]
  have e7 : Token.clawback auths a src amount s =
      Except.error Err.NegativeAmount := by
    simp only [Token.clawback, hchk, except_error_bind]
  have e8 : Token.mint auths a dst amount s =
      Except.error Err.NegativeAmount := by
    simp only [Token.mint, hchk, except_error_bind]
  refine ⟨e1, e2, e3, e4, e5, e6, e7, e8, ?_, ?_, ?_, ?_, ?_, ?_, ?_, ?_⟩
  · unfold step
    simp only [exec]
    rw [e1]
  · unfold step
    simp only [exec]
    rw [e2]
  · unfold step
    simp only [exec]
    rw [e3]
  · unfold step
    simp only [exec]
    rw [e4]
  · unfold step
    simp only [exec]
    rw [e5]
  · unfold step
    simp only [exec]
    rw [e6]
  · unfold step
    simp only [exec]
    rw [e7]
  · unfold step
    simp only [exec]
    rw [e8]

/-- C9 witness: on the empty ledger, every amount-taking mutating
operation called with amount `-1` fails with `NegativeAmount` and changes
nothing. -/
theorem C9_negative_amount_rejected_witness :
    (-1 : Int) < 0 ∧ (1 : Nat) ∈ [1, 2, 3] ∧ (2 : Nat) ∈ [1, 2, 3] ∧
      (3 : Nat) ∈ [1, 2, 3] ∧
      (Token.incr_allow [1, 2, 3] 1 2 (-1) emptyState =
          Except.error Err.NegativeAmount ∧
        Token.decr_allow [1, 2, 3] 1 2 (-1) emptyState =
          Except.error Err.NegativeAmount ∧
        Token.transfer 3 4 (-1) emptyState =
          Except.error Err.NegativeAmount ∧
        Token.transfer_from [1, 2, 3] 2 3 4 (-1) emptyState =
          Except.error Err.NegativeAmount ∧
        Token.burn [1, 2, 3] 3 (-1) emptyState =
          Except.error Err.NegativeAmount ∧
        Token.burn_from [1, 2, 3] 2 3 (-1) emptyState =
          Except.error Err.NegativeAmount ∧
        Token.clawback [1, 2, 3] 5 3 (-1) emptyState =
          Except.error Err.NegativeAmount ∧
        Token.mint [1, 2, 3] 5 4 (-1) emptyState =
          Except.error Err.NegativeAmount ∧
        step emptyState ⟨[1, 2, 3], Op.incrAllowOp 1 2 (-1)⟩ = emptyState ∧
        step emptyState ⟨[1, 2, 3], Op.decrAllowOp 1 2 (-1)⟩ = emptyState ∧
        step emptyState ⟨[1, 2, 3], Op.transferOp 3 4 (-1)⟩ = emptyState ∧
        step emptyState ⟨[1, 2, 3], Op.transferFromOp 2 3 4 (-1)⟩ =
          emptyState ∧
        step emptyState ⟨[1, 2, 3], Op.burnOp 3 (-1)⟩ = emptyState ∧
        step emptyState ⟨[1, 2, 3], Op.burnFromOp 2 3 (-1)⟩ = emptyState ∧
        step emptyState ⟨[1, 2, 3], Op.clawbackOp 5 3 (-1)⟩ = emptyState ∧
        step emptyState ⟨[1, 2, 3], Op.mintOp 5 4 (-1)⟩ = emptyState) :=
  ⟨by decide, by decide, by decide, by decide,
    C9_negative_amount_rejected emptyState [1, 2, 3] 1 2 3 4 5 (-1)
      (by decide) (by decide) (by decide) (by decide)⟩

/-- C10: Decimals range bound.  In every reachable state in which the
metadata has been written (that is, after any successful `initialize`),
the `decimals` query returns a value of at most 255: the `u32` input was
converted to a `u8` before being stored. -/
theorem C10_decimals_le_255 (calls : List Call) (d : Nat)
    (h : Token.decimals (run calls) = Except.ok d) : d ≤ 255 := by
  have hinv := run_inv calls
  unfold Token.decimals read_decimal at h
  cases hd : (run calls).decimal with
  | none =>
    rw [hd] at h
    exact absurd h (by simp)
  | some d' =>
    rw [hd] at h
    simp only [Except.ok.injEq] at h
    subst h
    exact hinv.decBound d' hd

/-- C10 witness: after initializing with decimal 7, the `decimals` query
returns 7, which is at most 255. -/
theorem C10_decimals_le_255_witness :
    Token.decimals (run [⟨[], Op.initOp 1 7 [] []⟩]) = Except.ok 7 ∧ 7 ≤ 255 :=
  ⟨by decide, C10_decimals_le_255 [⟨[], Op.initOp 1 7 [] []⟩] 7 (by decide)⟩
